import Mathlib

/-!
Verification development for the VectorDeque container
(src/DataStructures/VectorDeque/VectorDeque.hpp).

The C++ class VectorDeque<DataType> is a growable circular buffer with
fields _capacity, _data, _position, _size.  We shallowly embed it with the
element type fixed to Int.  The backing array _data is a List Int whose
length equals _capacity; reading _data[i] for i outside that range is
undefined behaviour in C++ and is modelled as the designated constant
oobValue.  A freshly allocated array (new DataType[n]) holds indeterminate
values, modelled as newAllocValue.  size_t values are modelled as Nat;
subtractions that the C++ code performs in size_t arithmetic and that can
underflow are modelled with sub64, which wraps modulo 2^64 exactly as
size_t does.  Operations that can throw are modelled in
Except (VDError × VD) _, where the error value carries the state of the
deque at the moment the exception is thrown (all fields as they were at the
throw statement), so that exception-safety claims are expressible.
-/

namespace VectorDeque

/-- Errors thrown by VectorDeque operations: std::length_error (carrying the
offending index, as the C++ code formats the index into the message) and
std::invalid_argument. -/
inductive VDError where
  | lengthError (index : Nat)
  | invalidArgument
deriving DecidableEq, Repr

/-- Value modelling a read of _data outside its allocated range
(undefined behaviour in the C++ source). -/
def oobValue : Int := 0

/-- Value modelling the indeterminate contents of a freshly allocated
backing array (new DataType[n] performs no initialization for int). -/
def newAllocValue : Int := 0

/-- State of a VectorDeque<int>: fields _capacity, _data, _position, _size. -/
structure VD where
  capacity : Nat
  data : List Int
  position : Nat
  size : Nat
deriving DecidableEq, Repr

/-- Width of size_t. -/
def w64 : Nat := 2 ^ 64

/-- Wrapping size_t subtraction, for the places where the C++ code
subtracts size_t values that may underflow. -/
def sub64 (a b : Nat) : Nat := (a % w64 + (w64 - b % w64)) % w64

/-- Decidable equality of computation results, so that concrete runs can be
checked by evaluation. -/
instance instDecEqExcept {e a : Type} [DecidableEq e] [DecidableEq a] :
    DecidableEq (Except e a) := fun x y =>
  match x, y with
  | .error u, .error u' =>
    if h : u = u' then isTrue (by rw [h]) else isFalse (by simp [h])
  | .ok u, .ok u' =>
    if h : u = u' then isTrue (by rw [h]) else isFalse (by simp [h])
  | .error _, .ok _ => isFalse (by simp)
  | .ok _, .error _ => isFalse (by simp)

/-- Read of _data[i]; out-of-range reads yield the designated junk value. -/
def readSlot (v : VD) (i : Nat) : Int := v.data.getD i oobValue

/-- The private method _internalIndex: compute the internal index for the
offset offset. -/
def internalIndex (v : VD) (offset : Nat) : Nat :=
  if v.position + offset < v.capacity then v.position + offset
  else v.position + offset - v.capacity

/-- The private method _internalNegativeIndexFrom: the internal index
offsetted by offset from frm going backwards. -/
def internalNegativeIndexFrom (v : VD) (frm offset : Nat) : Nat :=
  let internal := internalIndex v frm
  if internal ≥ offset then internal - offset
  else v.capacity - (offset - internal)

/-- The private method _numBeforeWrap: number of elements remaining before
wrapping to the beginning starting from start when length elements are
added. -/
def numBeforeWrap (v : VD) (start length : Nat) : Nat :=
  min (v.capacity - start) length

/-- The private method _checkIndex: length_error when index >= _size. -/
def checkIndex (v : VD) (index : Nat) : Option VDError :=
  if index ≥ v.size then some (.lengthError index) else none

/-- The private method _checkSize: _checkIndex (required - 1) when
required > 0. -/
def checkSize (v : VD) (required : Nat) : Option VDError :=
  if required > 0 then checkIndex v (required - 1) else none

/-- The private method _checkRange: _checkSize until, then
invalid_argument when frm > until. -/
def checkRange (v : VD) (frm untl : Nat) : Option VDError :=
  match checkSize v untl with
  | some e => some e
  | none => if frm > untl then some .invalidArgument else none

/-- The payload of sliceToArray after its range check: the list of values
the two memcpy calls write into the target array (first the run before the
wrap starting at the internal index of frm, then the wrapped remainder from
the start of _data). -/
def sliceVals (v : VD) (frm untl : Nat) : List Int :=
  let length := untl - frm
  let start := internalIndex v frm
  let nbw := numBeforeWrap v start length
  (List.range nbw).map (fun i => readSlot v (start + i))
    ++ (List.range (length - nbw)).map (fun i => readSlot v i)

/-- The method sliceToArray: range-checked copy-out of the logical range
[frm, untl); returns the values written to the target array. -/
def sliceToArray (v : VD) (frm untl : Nat) : Except (VDError × VD) (List Int) :=
  match checkRange v frm untl with
  | some e => .error (e, v)
  | none => .ok (sliceVals v frm untl)

/-- The private method _ensureCapacity: if _capacity < required, reallocate
to required * 2 + 1 slots, copy the live elements to the front of the new
block (copyToArray = sliceToArray(newData, 0, _size), whose range check
trivially passes), and reset _position to 0.  Slots past the live elements
keep their fresh-allocation contents. -/
def ensureCapacity (v : VD) (required : Nat) : VD :=
  if v.capacity < required then
    let newCapacity := required * 2 + 1
    { capacity := newCapacity
      data := sliceVals v 0 v.size ++ List.replicate (newCapacity - v.size) newAllocValue
      position := 0
      size := v.size }
  else v

/-- The private method _ensureCanFit. -/
def ensureCanFit (v : VD) (amount : Nat) : VD :=
  ensureCapacity v (v.size + amount)

/-- The private method _init / the capacity constructor: fresh backing
array of the given capacity with indeterminate contents, _position = 0,
_size = 0. -/
def mkVD (capacity : Nat) : VD :=
  { capacity := capacity
    data := List.replicate capacity newAllocValue
    position := 0
    size := 0 }

/-- DEFAULT_INITIAL_CAPACITY. -/
def DEFAULT_INITIAL_CAPACITY : Nat := 11

/-- Writing vals over l starting at offset s (the effect of a memcpy into
an array modelled as a list; every call site stays within the list). -/
def setRange (l : List Int) (s : Nat) (vals : List Int) : List Int :=
  l.take s ++ vals ++ l.drop (s + vals.length)

/-- The private method _shiftDown: shift the elements at logical positions
[frm, untl) one internal slot downwards.  The first memcpy copies
numBeforeWrap values from sources one slot above the destinations (reading
_data[start + numBeforeWrap], which is one past the array when
start + numBeforeWrap = _capacity); when numAfterWrap is nonzero the
element at internal slot 0 is moved to the last slot and the remaining
numAfterWrap - 1 values are shifted at the front.  _position is updated
when frm = 0. -/
def shiftDown (v : VD) (frm untl : Nat) : VD :=
  let length := untl - frm
  let start := internalNegativeIndexFrom v frm 1
  let nbw := numBeforeWrap v start length
  let naw := length - nbw
  let vals1 := (List.range nbw).map (fun i => readSlot v (start + 1 + i))
  let d1 := setRange v.data start vals1
  let d2 :=
    if naw ≠ 0 then
      let d1' := d1.set (v.capacity - 1) (d1.getD 0 oobValue)
      setRange d1' 0 ((List.range (naw - 1)).map (fun i => d1'.getD (1 + i) oobValue))
    else d1
  let pos :=
    if frm = 0 then
      if v.position = 0 then v.capacity - 1 else v.position - 1
    else v.position
  { v with data := d2, position := pos }

/-- The private method _shiftUp: shift the elements at logical positions
[frm, untl) one internal slot upwards, iterating from the end downwards;
_position is updated when frm = 0. -/
def shiftUp (v : VD) (frm untl : Nat) : VD :=
  let d := (List.range (untl - frm)).foldl
    (fun d i =>
      d.set (internalNegativeIndexFrom v untl i)
        (d.getD (internalNegativeIndexFrom v untl (i + 1)) oobValue))
    v.data
  let pos :=
    if frm = 0 then
      if v.position = v.capacity - 1 then 0 else v.position + 1
    else v.position
  { v with data := d, position := pos }

/-- The private method _insertAndResize: allocate 2 * _capacity + 1 slots,
copy the prefix with sliceToArray(newData, 0, before), place the element at
slot before, copy the suffix with sliceToArray(newData + before + 1,
before, _size) when before < _size (both range checks pass at the call
site, where before < _size ≤ _capacity); remaining slots keep their
fresh-allocation contents; _position resets to 0 and _size increments. -/
def insertAndResize (v : VD) (element : Int) (before : Nat) : VD :=
  let newCapacity := 2 * v.capacity + 1
  let suffix := if before < v.size then sliceVals v before v.size else []
  let written := before + 1 + suffix.length
  { capacity := newCapacity
    data := sliceVals v 0 before ++ [element] ++ suffix
      ++ List.replicate (newCapacity - written) newAllocValue
    position := 0
    size := v.size + 1 }

/-- The private method _writePosition. -/
def writePosition (v : VD) : Nat := internalIndex v v.size

/-- The method size(). -/
def size (v : VD) : Nat := v.size

/-- The method isEmpty(). -/
def isEmpty (v : VD) : Bool := v.size = 0

/-- The logical read _data[_internalIndex(index)] performed by operator[]
after its bounds check. -/
def atIdx (v : VD) (index : Nat) : Int := readSlot v (internalIndex v index)

/-- The method operator[]: bounds-checked element access. -/
def get (v : VD) (index : Nat) : Except (VDError × VD) Int :=
  match checkIndex v index with
  | some e => .error (e, v)
  | none => .ok (atIdx v index)

/-- The method add: ensure room for one more element, write it at the
write position, increment _size. -/
def add (v : VD) (element : Int) : VD :=
  let v1 := ensureCanFit v 1
  { v1 with data := v1.data.set (writePosition v1) element, size := v1.size + 1 }

/-- The method addFirst: ensure room for one more element, decrement
_position with wrap-around, write the element there, increment _size. -/
def addFirst (v : VD) (element : Int) : VD :=
  let v1 := ensureCanFit v 1
  let pos := if v1.position = 0 then v1.capacity - 1 else v1.position - 1
  { v1 with position := pos, data := v1.data.set pos element, size := v1.size + 1 }

/-- The method clear: _size = 0. -/
def clear (v : VD) : VD := { v with size := 0 }

/-- The method peek: first element after a size check. -/
def peek (v : VD) : Except (VDError × VD) Int :=
  match checkSize v 1 with
  | some e => .error (e, v)
  | none => get v 0

/-- The method peekLast: last element after a size check. -/
def peekLast (v : VD) : Except (VDError × VD) Int :=
  match checkSize v 1 with
  | some e => .error (e, v)
  | none => get v (v.size - 1)

/-- The method skip: size check, then advance _position by amount
(with wrap-around) and decrease _size by amount. -/
def skip (v : VD) (amount : Nat) : Except (VDError × VD) VD :=
  match checkSize v amount with
  | some e => .error (e, v)
  | none => .ok { v with position := internalIndex v amount, size := v.size - amount }

/-- The method skipLast: size check, then decrease _size by amount;
_position is unchanged. -/
def skipLast (v : VD) (amount : Nat) : Except (VDError × VD) VD :=
  match checkSize v amount with
  | some e => .error (e, v)
  | none => .ok { v with size := v.size - amount }

/-- The method pop: size check, read the first element via peek, then
remove it via skip. -/
def pop (v : VD) : Except (VDError × VD) (VD × Int) :=
  match checkSize v 1 with
  | some e => .error (e, v)
  | none =>
    match peek v with
    | .error ev => .error ev
    | .ok popped =>
      match skip v 1 with
      | .error ev => .error ev
      | .ok v1 => .ok (v1, popped)

/-- The method popLast: size check, read the last element via peekLast,
then remove it via skipLast. -/
def popLast (v : VD) : Except (VDError × VD) (VD × Int) :=
  match checkSize v 1 with
  | some e => .error (e, v)
  | none =>
    match peekLast v with
    | .error ev => .error ev
    | .ok popped =>
      match skipLast v 1 with
      | .error ev => .error ev
      | .ok v1 => .ok (v1, popped)

/-- The method removeAt(index): bounds check, capture the element, then
either just decrement _size (last element), or shift the prefix [0, index)
up (branch condition index / 2 <= _size as written in the source), or
shift the suffix [index + 1, _size) down, and decrement _size. -/
def removeAt (v : VD) (index : Nat) : Except (VDError × VD) (VD × Int) :=
  match checkIndex v index with
  | some e => .error (e, v)
  | none =>
    let result := atIdx v index
    if index = v.size - 1 then
      .ok ({ v with size := v.size - 1 }, result)
    else if index / 2 ≤ v.size then
      let v1 := shiftUp v 0 index
      .ok ({ v1 with size := v1.size - 1 }, result)
    else
      let v1 := shiftDown v (index + 1) v.size
      .ok ({ v1 with size := v1.size - 1 }, result)

/-- The method insert(element, before): before = 0 delegates to addFirst;
before = _size delegates to add; otherwise bounds check, then either the
combined grow-and-insert path (_size = _capacity), or a shift of the
cheaper side followed by writing the element at the internal index of
before (computed after the shift updated _position and after _size was
incremented). -/
def insert (v : VD) (element : Int) (before : Nat) : Except (VDError × VD) VD :=
  if before = 0 then .ok (addFirst v element)
  else if before ≠ v.size then
    match checkIndex v before with
    | some e => .error (e, v)
    | none =>
      if v.size = v.capacity then .ok (insertAndResize v element before)
      else if before ≤ v.size / 2 then
        let v1 := shiftDown v 0 before
        let v2 := { v1 with size := v1.size + 1 }
        .ok { v2 with data := v2.data.set (internalIndex v2 before) element }
      else
        let v1 := shiftUp v before v.size
        let v2 := { v1 with size := v1.size + 1 }
        .ok { v2 with data := v2.data.set (internalIndex v2 before) element }
  else .ok (add v element)

/-- Dereference of a forward iterator at position p: operator[] at p. -/
def derefForward (v : VD) (p : Nat) : Except (VDError × VD) Int :=
  get v p

/-- Dereference of a reverse iterator at position p: operator[] at
size() - position - 1, computed in size_t arithmetic. -/
def derefReverse (v : VD) (p : Nat) : Except (VDError × VD) Int :=
  get v (sub64 (sub64 v.size p) 1)

/-- The method removeAt(ConstReverseIterator): _checkIterator (the samePtr
flag models whether the iterator references this deque), then
removeAt(_size - position) in size_t arithmetic.  The C++ body lacks a
return statement, so its actual return value is unspecified; the value
produced by the inner removeAt is recorded here. -/
def removeAtRevIter (v : VD) (samePtr : Bool) (p : Nat) :
    Except (VDError × VD) (VD × Int) :=
  if !samePtr then .error (.invalidArgument, v)
  else removeAt v (sub64 v.size p)

/-- Move construction VectorDeque(VectorDeque&&) and move assignment
operator=(VectorDeque&&) copy all four fields with memcpy and then null
only the source's _data pointer; the source's _capacity, _position and
_size fields are untouched.  VDM is the deque state with a nullable
backing array. -/
structure VDM where
  capacity : Nat
  data : Option (List Int)
  position : Nat
  size : Nat
deriving DecidableEq, Repr

/-- Move construction: memcpy of all fields into the destination, then
that._data = NULL. -/
def moveConstruct (that : VDM) : VDM × VDM :=
  (that, { that with data := none })

/-- Move assignment: delete[] the destination's old array, memcpy all
fields from the source, then that._data = NULL (the destination's previous
state is fully overwritten). -/
def moveAssign (_this that : VDM) : VDM × VDM :=
  (that, { that with data := none })

/-- The method size() on a possibly moved-from deque reads the _size
field. -/
def sizeM (v : VDM) : Nat := v.size

/-- The method isEmpty() on a possibly moved-from deque. -/
def isEmptyM (v : VDM) : Bool := v.size = 0

/-- Iterator state: a position and the identity (address) of the
VectorDeque it iterates over.  The C++ comparison operators only accept
iterators of the same direction, so direction is not part of the state. -/
structure Iter where
  position : Nat
  vdPtr : Nat
deriving DecidableEq, Repr

/-- IteratorBase::operator==: same position and same deque pointer. -/
def iterEq (a b : Iter) : Bool :=
  a.position = b.position && a.vdPtr = b.vdPtr

/-- IteratorBase::operator<: positions only. -/
def iterLt (a b : Iter) : Bool := a.position < b.position

/-- IteratorBase::operator>: positions only. -/
def iterGt (a b : Iter) : Bool := a.position > b.position

/-- IteratorBase::operator<=: equality or operator<. -/
def iterLe (a b : Iter) : Bool := iterEq a b || iterLt a b

/-- IteratorBase::operator>=: equality or operator>. -/
def iterGe (a b : Iter) : Bool := iterEq a b || iterGt a b

/-- Reference model for C1: a plain resizable array replayed with
equivalent semantics (append, prepend, insert before an index, delete at
an index, drop from the front, drop from the back). -/
def modelAdd (l : List Int) (x : Int) : List Int := l ++ [x]

/-- Reference model prepend. -/
def modelAddFirst (l : List Int) (x : Int) : List Int := x :: l

/-- Reference model insert before an index. -/
def modelInsert (l : List Int) (x : Int) (before : Nat) : List Int :=
  l.take before ++ [x] ++ l.drop before

/-- Reference model removal at an index. -/
def modelRemoveAt (l : List Int) (i : Nat) : List Int :=
  l.take i ++ l.drop (i + 1)

/-- Reference model skip from the front. -/
def modelSkip (l : List Int) (amount : Nat) : List Int := l.drop amount

/-- Reference model skip from the back. -/
def modelSkipLast (l : List Int) (amount : Nat) : List Int :=
  l.take (l.length - amount)

/-- Well-formedness of a deque state: the backing list realizes _capacity
slots, the live count fits, and _position is a valid slot (0 when the
capacity is 0). -/
def WF (v : VD) : Prop :=
  v.data.length = v.capacity ∧ v.size ≤ v.capacity ∧
    (v.position < v.capacity ∨ (v.capacity = 0 ∧ v.position = 0))

/-- A result in the exception monad only ever surfaces errors carrying the
unmutated input state. -/
def preservesOnError {α : Type} (r : Except (VDError × VD) α) (v : VD) : Prop :=
  ∀ e v', r = .error (e, v') → v' = v


/-! Helper lemmas. -/

/-- Element access into a mapped range. -/
theorem getD_range_map (f : Nat → Int) (n j : Nat) (d : Int) (h : j < n) :
    ((List.range n).map f).getD j d = f j := by
  have h1 : j < ((List.range n).map f).length := by simpa using h
  rw [List.getD_eq_getElem _ _ h1, List.getElem_map, List.getElem_range]

/-- Case characterization of _internalIndex. -/
theorem internalIndex_char (v : VD) (offset : Nat) :
    (v.position + offset < v.capacity ∧ internalIndex v offset = v.position + offset) ∨
      (v.capacity ≤ v.position + offset ∧
        internalIndex v offset = v.position + offset - v.capacity) := by
  unfold internalIndex
  split
  · exact Or.inl ⟨‹_›, rfl⟩
  · exact Or.inr ⟨by omega, rfl⟩

/-- Unfolding equation for sliceVals. -/
theorem sliceVals_eq (v : VD) (frm untl : Nat) :
    sliceVals v frm untl =
      (List.range (numBeforeWrap v (internalIndex v frm) (untl - frm))).map
          (fun i => readSlot v (internalIndex v frm + i)) ++
        (List.range ((untl - frm) - numBeforeWrap v (internalIndex v frm) (untl - frm))).map
          (fun i => readSlot v i) := rfl

/-- The slice produced by the two memcpy calls of sliceToArray realizes the
logical elements: its j-th entry is the element at logical index frm + j. -/
theorem sliceVals_getD (v : VD) (frm untl j : Nat) (d : Int)
    (hpos : v.position < v.capacity) (huntl : untl ≤ v.capacity)
    (hj : j < untl - frm) :
    (sliceVals v frm untl).getD j d = atIdx v (frm + j) := by
  have hatIdx : atIdx v (frm + j) = readSlot v (internalIndex v (frm + j)) := rfl
  have hnb : numBeforeWrap v (internalIndex v frm) (untl - frm) =
      min (v.capacity - internalIndex v frm) (untl - frm) := rfl
  rw [sliceVals_eq, hatIdx]
  rcases Nat.lt_or_ge j (numBeforeWrap v (internalIndex v frm) (untl - frm)) with hcase | hcase
  · rw [List.getD_append _ _ _ _ (by simpa using hcase), getD_range_map _ _ _ _ hcase]
    have hidx : internalIndex v frm + j = internalIndex v (frm + j) := by
      rcases internalIndex_char v frm with ⟨h1, e1⟩ | ⟨h1, e1⟩ <;>
        rcases internalIndex_char v (frm + j) with ⟨h2, e2⟩ | ⟨h2, e2⟩ <;> omega
    rw [hidx]
  · rw [List.getD_append_right _ _ _ _ (by simpa using hcase)]
    simp only [List.length_map, List.length_range]
    rw [getD_range_map _ _ _ _ (by omega)]
    have hidx : j - numBeforeWrap v (internalIndex v frm) (untl - frm) =
        internalIndex v (frm + j) := by
      rcases internalIndex_char v frm with ⟨h1, e1⟩ | ⟨h1, e1⟩ <;>
        rcases internalIndex_char v (frm + j) with ⟨h2, e2⟩ | ⟨h2, e2⟩ <;> omega
    rw [hidx]

/-- Length of the slice payload. -/
theorem sliceVals_length (v : VD) (frm untl : Nat) :
    (sliceVals v frm untl).length = untl - frm := by
  have : numBeforeWrap v (internalIndex v frm) (untl - frm) ≤ untl - frm := by
    unfold numBeforeWrap; omega
  simp [sliceVals]
  omega

/-! Claim theorems. -/

/-- C9: clear() is idempotent: calling it twice leaves isEmpty() true after
each call, and neither call changes the capacity or the backing array
(no reallocation occurs). -/
theorem c9_clear_idempotent (v : VD) :
    isEmpty (clear v) = true ∧ isEmpty (clear (clear v)) = true ∧
    (clear v).capacity = v.capacity ∧ (clear (clear v)).capacity = v.capacity ∧
    (clear v).data = v.data ∧ (clear (clear v)).data = v.data := by
  simp [isEmpty, clear]

/-- C10: on any deque with a valid start offset, including an empty one,
skip(0) and skipLast(0) succeed without raising and return the state
completely unchanged (the size check is vacuous for amount 0). -/
theorem c10_skip_zero (v : VD)
    (hpos : v.position < v.capacity ∨ (v.capacity = 0 ∧ v.position = 0)) :
    skip v 0 = .ok v ∧ skipLast v 0 = .ok v := by
  have hii : internalIndex v 0 = v.position := by
    unfold internalIndex; split <;> omega
  have hcs : checkSize v 0 = none := rfl
  constructor
  · unfold skip
    rw [hcs, hii]
    rfl
  · unfold skipLast
    rw [hcs]
    rfl

/-- C10 witness: skip(0) and skipLast(0) on a freshly constructed empty
deque succeed and change nothing. -/
theorem c10_skip_zero_witness :
    skip (mkVD 11) 0 = .ok (mkVD 11) ∧ skipLast (mkVD 11) 0 = .ok (mkVD 11) :=
  c10_skip_zero (mkVD 11) (by decide)

/-- C8 counterexample: two iterators at different positions over different
deques (distinct buffer identities) are nevertheless ordered by operator<,
which compares raw positions only — refuting the claim that the ordering
comparisons take buffer identity into account. -/
theorem c8_counterexample :
    iterLt ⟨0, 1⟩ ⟨1, 2⟩ = true ∧ (⟨0, 1⟩ : Iter).vdPtr ≠ (⟨1, 2⟩ : Iter).vdPtr := by
  decide

/-- C8 amended: equality compares the (position, buffer-identity) pair, but
the strict ordering comparisons compare positions alone and ignore buffer
identity; <= and >= are the disjunction of equality with < and >. -/
theorem c8_amended (a b : Iter) :
    (iterEq a b = true ↔ a.position = b.position ∧ a.vdPtr = b.vdPtr) ∧
    (iterLt a b = true ↔ a.position < b.position) ∧
    (iterGt a b = true ↔ b.position < a.position) ∧
    (iterLe a b = (iterEq a b || iterLt a b)) ∧
    (iterGe a b = (iterEq a b || iterGt a b)) := by
  refine ⟨?_, ?_, ?_, rfl, rfl⟩ <;> simp [iterEq, iterLt, iterGt]

/-- C6 counterexample: after move-constructing from a deque holding two
elements, the source still reports size 2 and isEmpty() false, because
only its data pointer is nulled while its _size field is untouched. -/
theorem c6_counterexample :
    isEmptyM (moveConstruct (⟨11, some [3, 5], 0, 2⟩ : VDM)).2 = false ∧
    sizeM (moveConstruct (⟨11, some [3, 5], 0, 2⟩ : VDM)).2 = 2 := by
  decide

/-- C6 amended: moving transfers every field (so the destination has the
source's former size, capacity and backing store) and nulls the source's
data pointer, leaving it disengaged; but the source's _size field is not
reset, so its reported size remains the former element count. -/
theorem c6_amended (b : VDM) :
    (moveConstruct b).1 = b ∧
    (moveConstruct b).2.data = none ∧
    (moveConstruct b).2.size = b.size ∧
    (moveConstruct b).2.capacity = b.capacity ∧
    (∀ a : VDM, (moveAssign a b).1 = b ∧ (moveAssign a b).2.data = none ∧
      (moveAssign a b).2.size = b.size) := by
  refine ⟨rfl, rfl, rfl, rfl, fun a => ⟨rfl, rfl, rfl⟩⟩

/-- C1 (refutation by evaluation): replaying the operation sequence
add(10); add(11); insert(12, 1) from a default-capacity empty deque against
the plain resizable-array reference model.  All arguments are in range and
no sequence step fails, yet indexed access at 0 yields the junk value that
_shiftDown copied from one slot past the backing array (its memcpy reads
_data[11] on an 11-slot array) instead of the model element 10; the sizes
agree but the contents do not. -/
theorem c1_refinement_failure :
    insert (add (add (mkVD 11) 10) 11) 12 1 =
      .ok (⟨11, [12, 11, 0, 0, 0, 0, 0, 0, 0, 0, 0], 10, 3⟩ : VD) ∧
    modelInsert (modelAdd (modelAdd [] 10) 11) 12 1 = [10, 12, 11] ∧
    (⟨11, [12, 11, 0, 0, 0, 0, 0, 0, 0, 0, 0], 10, 3⟩ : VD).size =
      ([10, 12, 11] : List Int).length ∧
    atIdx (⟨11, [12, 11, 0, 0, 0, 0, 0, 0, 0, 0, 0], 10, 3⟩ : VD) 0 = oobValue ∧
    atIdx (⟨11, [12, 11, 0, 0, 0, 0, 0, 0, 0, 0, 0], 10, 3⟩ : VD) 0 ≠
      ([10, 12, 11] : List Int).getD 0 0 := by
  decide

/-- C2 (counterexample): a deque at capacity 2 holding 2 elements grows
during insert(9, 1), a growth trigger with count = 2 and k = 1; the claim
demands new capacity 2*(2+1)+1 = 7, but the growth-and-insert fast path
reallocates to 2*_capacity + 1 = 5. -/
theorem c2_counterexample :
    insert (⟨2, [7, 8], 0, 2⟩ : VD) 9 1 = .ok (⟨5, [7, 9, 8, 0, 0], 0, 3⟩ : VD) ∧
    (⟨5, [7, 9, 8, 0, 0], 0, 3⟩ : VD).capacity ≠
      2 * ((⟨2, [7, 8], 0, 2⟩ : VD).size + 1) + 1 := by
  decide

/-- C3 (refutation by evaluation): removeAt(3) on the deque built by
adding 0, 1, 2, 3, 4 to a default-constructed deque (size 5, below
capacity 11).  Index 3 exceeds 5 - 3 - 1 = 1, so per the claim the suffix
should shift backward leaving the start offset unchanged; but the branch
condition index / 2 <= _size is always true, so the code shifts the prefix
[0, 3) forward and the start offset advances from 0 to 1.  The removed
element and the remaining logical contents are still correct. -/
theorem c3_remove_shift_side :
    removeAt (add (add (add (add (add (mkVD 11) 0) 1) 2) 3) 4) 3 =
      .ok ((⟨11, [0, 0, 1, 2, 4, 0, 0, 0, 0, 0, 0], 1, 4⟩ : VD), 3) ∧
    (add (add (add (add (add (mkVD 11) 0) 1) 2) 3) 4).position = 0 ∧
    (⟨11, [0, 0, 1, 2, 4, 0, 0, 0, 0, 0, 0], 1, 4⟩ : VD).position = 1 ∧
    3 > (add (add (add (add (add (mkVD 11) 0) 1) 2) 3) 4).size - 3 - 1 ∧
    sliceVals (⟨11, [0, 0, 1, 2, 4, 0, 0, 0, 0, 0, 0], 1, 4⟩ : VD) 0 4 =
      [0, 1, 2, 4] := by
  decide

/-- C4 (refutation by evaluation): on a deque holding 10, 20, a reverse
iterator at position 0 dereferences to the element at logical index
size - 0 - 1 = 1, namely 20; but removeAt(reverse iterator) calls
removeAt(_size - position) = removeAt(2), which raises length_error, so the
claim's "never raises for valid p" fails at p = 0.  At p = 1 the call does
not raise but removes the element at index 1 (the value 20) instead of the
pointed-to element at index 0 (the value 10). -/
theorem c4_reverse_removeAt_failure :
    derefReverse (add (add (mkVD 11) 10) 20) 0 = .ok 20 ∧
    removeAtRevIter (add (add (mkVD 11) 10) 20) true 0 =
      .error (.lengthError 2, add (add (mkVD 11) 10) 20) ∧
    derefReverse (add (add (mkVD 11) 10) 20) 1 = .ok 10 ∧
    removeAtRevIter (add (add (mkVD 11) 10) 20) true 1 =
      .ok ((⟨11, [10, 20, 0, 0, 0, 0, 0, 0, 0, 0, 0], 0, 1⟩ : VD), 20) := by
  decide

/-- Errors from operator[] carry the unmutated state. -/
theorem preservesOnError_get (v : VD) (index : Nat) :
    preservesOnError (get v index) v := by
  intro e v' h
  unfold get at h
  split at h <;> simp_all

/-- Errors from skip carry the unmutated state. -/
theorem preservesOnError_skip (v : VD) (amount : Nat) :
    preservesOnError (skip v amount) v := by
  intro e v' h
  unfold skip at h
  split at h <;> simp_all

/-- Errors from skipLast carry the unmutated state. -/
theorem preservesOnError_skipLast (v : VD) (amount : Nat) :
    preservesOnError (skipLast v amount) v := by
  intro e v' h
  unfold skipLast at h
  split at h <;> simp_all

/-- Errors from peek carry the unmutated state. -/
theorem preservesOnError_peek (v : VD) : preservesOnError (peek v) v := by
  intro e v' h
  unfold peek at h
  split at h
  · simp_all
  · exact preservesOnError_get v 0 e v' h

/-- Errors from peekLast carry the unmutated state. -/
theorem preservesOnError_peekLast (v : VD) : preservesOnError (peekLast v) v := by
  intro e v' h
  unfold peekLast at h
  split at h
  · simp_all
  · exact preservesOnError_get v (v.size - 1) e v' h

/-- Errors from pop carry the unmutated state. -/
theorem preservesOnError_pop (v : VD) : preservesOnError (pop v) v := by
  intro e v' h
  unfold pop at h
  split at h
  · simp_all
  · split at h
    · injection h with h2
      subst h2
      exact preservesOnError_peek v e v' (by assumption)
    · split at h
      · injection h with h2
        subst h2
        exact preservesOnError_skip v 1 e v' (by assumption)
      · simp at h

/-- Errors from popLast carry the unmutated state. -/
theorem preservesOnError_popLast (v : VD) : preservesOnError (popLast v) v := by
  intro e v' h
  unfold popLast at h
  split at h
  · simp_all
  · split at h
    · injection h with h2
      subst h2
      exact preservesOnError_peekLast v e v' (by assumption)
    · split at h
      · injection h with h2
        subst h2
        exact preservesOnError_skipLast v 1 e v' (by assumption)
      · simp at h

/-- Errors from removeAt carry the unmutated state. -/
theorem preservesOnError_removeAt (v : VD) (index : Nat) :
    preservesOnError (removeAt v index) v := by
  intro e v' h
  unfold removeAt at h
  split at h
  · simp_all
  · split at h
    · simp at h
    · split at h <;> simp at h

/-- Errors from insert carry the unmutated state. -/
theorem preservesOnError_insert (v : VD) (element : Int) (before : Nat) :
    preservesOnError (insert v element before) v := by
  intro e v' h
  unfold insert at h
  split at h
  · simp at h
  · split at h
    · split at h
      · simp_all
      · split at h
        · simp at h
        · split at h <;> simp at h
    · simp at h

/-- Errors from sliceToArray carry the unmutated state. -/
theorem preservesOnError_sliceToArray (v : VD) (frm untl : Nat) :
    preservesOnError (sliceToArray v frm untl) v := by
  intro e v' h
  unfold sliceToArray at h
  split at h <;> simp_all

/-- C5: the strong guarantee: whichever of the checked operations raises,
the error surfaces with the deque fields exactly as they were before the
call; every check precedes every mutation.  The error value of each
operation carries the deque state at the throw statement, and for every
operation and every input that state equals the pre-call state. -/
theorem c5_strong_guarantee (v : VD) :
    (∀ index, preservesOnError (get v index) v) ∧
    preservesOnError (peek v) v ∧
    preservesOnError (peekLast v) v ∧
    preservesOnError (pop v) v ∧
    preservesOnError (popLast v) v ∧
    (∀ index, preservesOnError (removeAt v index) v) ∧
    (∀ element before, preservesOnError (insert v element before) v) ∧
    (∀ amount, preservesOnError (skip v amount) v) ∧
    (∀ amount, preservesOnError (skipLast v amount) v) ∧
    (∀ frm untl, preservesOnError (sliceToArray v frm untl) v) ∧
    (∀ p, preservesOnError (derefForward v p) v) ∧
    (∀ p, preservesOnError (derefReverse v p) v) :=
  ⟨fun index => preservesOnError_get v index,
    preservesOnError_peek v,
    preservesOnError_peekLast v,
    preservesOnError_pop v,
    preservesOnError_popLast v,
    fun index => preservesOnError_removeAt v index,
    fun element before => preservesOnError_insert v element before,
    fun amount => preservesOnError_skip v amount,
    fun amount => preservesOnError_skipLast v amount,
    fun frm untl => preservesOnError_sliceToArray v frm untl,
    fun p => preservesOnError_get v p,
    fun p => preservesOnError_get v (sub64 (sub64 v.size p) 1)⟩

/-- C5 witness: removeAt(5) on a two-element deque raises, and by the
strong-guarantee theorem the state carried by the error is the pre-call
state. -/
theorem c5_strong_guarantee_witness :
    removeAt (⟨11, [10, 20, 0, 0, 0, 0, 0, 0, 0, 0, 0], 0, 2⟩ : VD) 5 =
      .error (.lengthError 5, (⟨11, [10, 20, 0, 0, 0, 0, 0, 0, 0, 0, 0], 0, 2⟩ : VD)) ∧
    (⟨11, [10, 20, 0, 0, 0, 0, 0, 0, 0, 0, 0], 0, 2⟩ : VD) =
      (⟨11, [10, 20, 0, 0, 0, 0, 0, 0, 0, 0, 0], 0, 2⟩ : VD) :=
  ⟨by decide,
    ((c5_strong_guarantee (⟨11, [10, 20, 0, 0, 0, 0, 0, 0, 0, 0, 0], 0, 2⟩ : VD)).2.2.2.2.2.1 5)
      (.lengthError 5) (⟨11, [10, 20, 0, 0, 0, 0, 0, 0, 0, 0, 0], 0, 2⟩ : VD) (by decide)⟩

/-- C2 (amended): every growth that goes through _ensureCapacity
reallocates to exactly 2*(count+k)+1 slots, copies the live elements into
the new block starting at physical slot 0 and resets the start offset to
0; but the growth-and-insert fast path taken by insert at an internal
position when count = capacity reallocates to 2*capacity + 1 = 2*count + 1
slots (not 2*(count+1)+1), likewise linearized with the start offset reset
to 0. -/
theorem c2_growth_policy :
    (∀ (v : VD) (k : Nat), WF v → v.capacity < v.size + k →
      (ensureCanFit v k).capacity = 2 * (v.size + k) + 1 ∧
      (ensureCanFit v k).position = 0 ∧
      (ensureCanFit v k).size = v.size ∧
      (∀ i, i < v.size → readSlot (ensureCanFit v k) i = atIdx v i)) ∧
    (∀ (v : VD) (element : Int) (before : Nat),
      (insertAndResize v element before).capacity = 2 * v.capacity + 1 ∧
      (insertAndResize v element before).position = 0 ∧
      (insertAndResize v element before).size = v.size + 1) := by
  constructor
  · intro v k hwf hlt
    obtain ⟨hlen, hszle, hposd⟩ := hwf
    have hecf : ensureCanFit v k =
        { capacity := (v.size + k) * 2 + 1,
          data := sliceVals v 0 v.size ++
            List.replicate ((v.size + k) * 2 + 1 - v.size) newAllocValue,
          position := 0,
          size := v.size } := by
      unfold ensureCanFit ensureCapacity
      rw [if_pos hlt]
    refine ⟨?_, by rw [hecf], by rw [hecf], ?_⟩
    · rw [hecf]
      show (v.size + k) * 2 + 1 = 2 * (v.size + k) + 1
      omega
    · intro i hi
      have hpos : v.position < v.capacity := by
        rcases hposd with h | ⟨h1, h2⟩
        · exact h
        · omega
      rw [hecf]
      show (sliceVals v 0 v.size ++ _).getD i oobValue = atIdx v i
      rw [List.getD_append _ _ _ _ (by rw [sliceVals_length]; omega)]
      have := sliceVals_getD v 0 v.size i oobValue hpos hszle (by omega)
      simpa using this
  · intro v element before
    exact ⟨rfl, rfl, rfl⟩

/-- C2 witness: growing a full 2-slot deque for one extra element through
_ensureCapacity yields capacity 7 = 2*(2+1)+1 with the second live element
re-linearized at physical slot 1. -/
theorem c2_growth_policy_witness :
    (ensureCanFit (⟨2, [7, 8], 0, 2⟩ : VD) 1).capacity = 2 * (2 + 1) + 1 ∧
    readSlot (ensureCanFit (⟨2, [7, 8], 0, 2⟩ : VD) 1) 1 =
      atIdx (⟨2, [7, 8], 0, 2⟩ : VD) 1 := by
  obtain ⟨h1, h2, h3, h4⟩ := c2_growth_policy.1 (⟨2, [7, 8], 0, 2⟩ : VD) 1
    ⟨rfl, by decide, Or.inl (by decide)⟩ (by decide)
  exact ⟨h1, h4 1 (by decide)⟩

/-- C7: on any deque exactly at capacity C at least 6 whose logical
contents are 0, 1, ..., C-1 (whatever the start offset), insert(20, 5)
takes the grow-and-insert path and produces size C+1 with logical contents
0, 1, 2, 3, 4, 20, 5, ..., C-1: indices below 5 are unchanged, index 5
holds 20, and every index above 5 holds its former predecessor: no element
is lost or reordered. -/
theorem c7_insert_at_full_capacity (v : VD) (C : Nat)
    (hC : 6 ≤ C) (hcap : v.capacity = C) (hsz : v.size = C)
    (hpos : v.position < C)
    (hcontent : ∀ i, i < C → atIdx v i = (i : Int)) :
    insert v 20 5 = .ok (insertAndResize v 20 5) ∧
    (insertAndResize v 20 5).size = C + 1 ∧
    (∀ i, i < 5 → atIdx (insertAndResize v 20 5) i = (i : Int)) ∧
    atIdx (insertAndResize v 20 5) 5 = 20 ∧
    (∀ i, 5 < i → i < C + 1 → atIdx (insertAndResize v 20 5) i = (i : Int) - 1) := by
  have hposcap : v.position < v.capacity := by omega
  have h5ne : ¬((5 : Nat) = v.size) := by omega
  have hch : checkIndex v 5 = none := by
    unfold checkIndex
    rw [if_neg (by omega)]
  have hfull : v.size = v.capacity := by omega
  have hins : insert v 20 5 = .ok (insertAndResize v 20 5) := by
    unfold insert
    rw [if_neg (by decide : ¬((5 : Nat) = 0)), if_pos h5ne, hch, if_pos hfull]
  have hsuf : (if 5 < v.size then sliceVals v 5 v.size else []) = sliceVals v 5 v.size :=
    if_pos (by omega)
  have hdata : (insertAndResize v 20 5).data =
      sliceVals v 0 5 ++ ([20] ++ (sliceVals v 5 v.size ++
        List.replicate (2 * v.capacity + 1 - (5 + 1 + (sliceVals v 5 v.size).length))
          newAllocValue)) := by
    unfold insertAndResize
    rw [hsuf]
    simp [List.append_assoc]
  have hwcap : (insertAndResize v 20 5).capacity = 2 * v.capacity + 1 := rfl
  have hwpos : (insertAndResize v 20 5).position = 0 := rfl
  have hii : ∀ i, i ≤ C → internalIndex (insertAndResize v 20 5) i = i := by
    intro i hi
    unfold internalIndex
    rw [hwcap, hwpos]
    rw [if_pos (by omega)]
    omega
  have hlen1 : (sliceVals v 0 5).length = 5 := by rw [sliceVals_length]
  have hlen2 : (sliceVals v 5 v.size).length = C - 5 := by rw [sliceVals_length]; omega
  have hat : ∀ i, i ≤ C → atIdx (insertAndResize v 20 5) i =
      ((insertAndResize v 20 5).data).getD i oobValue := by
    intro i hi
    show readSlot _ (internalIndex _ i) = _
    rw [hii i hi]
    rfl
  refine ⟨hins, by show v.size + 1 = C + 1; omega, ?_, ?_, ?_⟩
  · intro i hi
    rw [hat i (by omega), hdata, List.getD_append _ _ _ _ (by omega)]
    have hsv := sliceVals_getD v 0 5 i oobValue hposcap (by omega) (by omega)
    rw [Nat.zero_add] at hsv
    rw [hsv]
    exact hcontent i (by omega)
  · rw [hat 5 (by omega), hdata, List.getD_append_right _ _ _ _ (by omega), hlen1]
    rfl
  · intro i hi5 hiC
    rw [hat i (by omega), hdata, List.getD_append_right _ _ _ _ (by omega), hlen1,
      List.getD_append_right _ _ _ _ (by simp; omega)]
    simp only [List.length_singleton]
    rw [List.getD_append _ _ _ _ (by omega)]
    have hsv := sliceVals_getD v 5 v.size (i - 5 - 1) oobValue hposcap (by omega) (by omega)
    rw [hsv]
    have h56 : 5 + (i - 5 - 1) = i - 1 := by omega
    rw [h56]
    rw [hcontent (i - 1) (by omega)]
    omega

/-- C7 witness: a capacity-6 deque with start offset 2 holding 0..5
logically, after insert(20, 5): size 7, index 5 holds 20, index 6 holds
the former element 5. -/
theorem c7_insert_at_full_capacity_witness :
    insert (⟨6, [4, 5, 0, 1, 2, 3], 2, 6⟩ : VD) 20 5 =
      .ok (insertAndResize (⟨6, [4, 5, 0, 1, 2, 3], 2, 6⟩ : VD) 20 5) ∧
    (insertAndResize (⟨6, [4, 5, 0, 1, 2, 3], 2, 6⟩ : VD) 20 5).size = 7 ∧
    atIdx (insertAndResize (⟨6, [4, 5, 0, 1, 2, 3], 2, 6⟩ : VD) 20 5) 5 = 20 ∧
    atIdx (insertAndResize (⟨6, [4, 5, 0, 1, 2, 3], 2, 6⟩ : VD) 20 5) 6 = 5 := by
  obtain ⟨h1, h2, h3, h4, h5⟩ := c7_insert_at_full_capacity
    (⟨6, [4, 5, 0, 1, 2, 3], 2, 6⟩ : VD) 6 (by decide) rfl rfl (by decide) (by decide)
  refine ⟨h1, h2, h4, ?_⟩
  rw [h5 6 (by decide) (by decide)]
  decide

end VectorDeque
